import Mathlib

/-!
Verification of the core of `difftoml`: the key-flattening and set-partition
comparison engine.

The embedded functions follow `src/key_handling.rs`, `src/utils.rs`,
`src/parse.rs` and `src/main.rs`:

* `compare_vectors` (key_handling.rs:14-56, duplicated in main.rs:138-180):
  partitions two vectors into (first-only, second-only, both), with a
  defensive symmetry check that returns an `AsymmetricComparison` error.
  Rust `Vec` is modelled as `List`, `T: Eq` as `DecidableEq T`,
  `Vec::contains` as decidable list membership, and the per-element
  push-into-one-of-two-vectors loops as the corresponding `List.filter`s
  (which produce the pushed elements in the same order).
* `convert_string_of_keys_to_list_of_key_str` (key_handling.rs:65-74):
  splitting of the exclusion string on `,`; Rust `str::split(",")` is
  modelled by the char-level `split_comma` below, which keeps empty tokens
  exactly as Rust does (`"a,"` yields `["a", ""]`, `""` yields `[""]`).
* `convert_key_list_to_key_str` (key_handling.rs:102-111): dot-joining of a
  key-path's segments.
* `filter_keys` (key_handling.rs:151-178): blacklist filtering by substring
  containment over the dotted form; Rust `str::contains` is modelled by
  `str_contains`, contiguous-sublist containment on the char lists.
* `parse_to_inner` (utils.rs:90-131, parse.rs:87-107, main.rs:72-113): the
  flattener over `toml::Value`; the `toml::Value` enum is `TomlValue`, a
  table's entry map is its entry list, and the result `HashMap` is an
  association list `AssocMap` whose `mapInsert` replaces any existing
  binding of the key, as `HashMap::insert` does.
-/

/-- The `toml::Value` enum (leaf payloads kept abstract where their contents
never matter to the flattener: a datetime is carried as its text). -/
inductive TomlValue where
  | string : String → TomlValue
  | integer : Int → TomlValue
  | float : Float → TomlValue
  | boolean : Bool → TomlValue
  | datetime : String → TomlValue
  | array : List TomlValue → TomlValue
  | table : List (String × TomlValue) → TomlValue

instance : Inhabited TomlValue :=
  ⟨.table []⟩

/-- The flattened document: key-paths associated to values, as built by
`parse_to_inner`'s `HashMap` (`HashMap<Vec<String>, toml::Value>`). -/
abbrev AssocMap := List (List String × TomlValue)

/-- `HashMap::insert`: any existing binding of `key` is replaced. -/
def mapInsert (collection : AssocMap) (key : List String) (toml_val : TomlValue) : AssocMap :=
  collection.filter (fun p => decide (p.1 ≠ key)) ++ [(key, toml_val)]

/-- Lookup in the flattened document, `HashMap::get`. -/
def map_lookup (collection : AssocMap) (key : List String) : Option TomlValue :=
  (collection.find? (fun p => decide (p.1 = key))).map (fun p => p.2)

/-- `compare_vectors` (key_handling.rs:14-56): the first loop pushes each
element of `first` into `in_both` or `in_first_only` according to
`second.contains`, the second loop does the mirror pass over `second`, the
two final loops set `not_found` when the two views of the intersection
disagree, and `not_found` triggers the `Asymmetric comparison` error. -/
def compare_vectors {T : Type} [DecidableEq T] (first second : List T) :
    Except String (List T × List T × List T) :=
  let in_both := first.filter (fun e => decide (e ∈ second))
  let in_first_only := first.filter (fun e => decide (e ∉ second))
  let in_both_wrt_second := second.filter (fun e => decide (e ∈ first))
  let in_second_only := second.filter (fun e => decide (e ∉ first))
  let not_found :=
    in_both.any (fun e => decide (e ∉ in_both_wrt_second)) ||
    in_both_wrt_second.any (fun e => decide (e ∉ in_both))
  if not_found then Except.error "ERROR: Asymmetric comparison"
  else Except.ok (in_first_only, in_second_only, in_both)

/-- The conclusion of the partitioner-totality claim: the three outputs are
exactly first-minus-second, second-minus-first and the intersection, they are
pairwise disjoint, and they cover exactly the union of the inputs. -/
def IsExactPartition {T : Type} (first second first_only second_only both : List T) : Prop :=
  (∀ x, x ∈ first_only ↔ x ∈ first ∧ x ∉ second) ∧
  (∀ x, x ∈ second_only ↔ x ∈ second ∧ x ∉ first) ∧
  (∀ x, x ∈ both ↔ x ∈ first ∧ x ∈ second) ∧
  (∀ x, ¬(x ∈ first_only ∧ x ∈ second_only)) ∧
  (∀ x, ¬(x ∈ first_only ∧ x ∈ both)) ∧
  (∀ x, ¬(x ∈ second_only ∧ x ∈ both)) ∧
  (∀ x, (x ∈ first_only ∨ x ∈ second_only ∨ x ∈ both) ↔ (x ∈ first ∨ x ∈ second))

/-- The `not_found` flag of `compare_vectors` is never set: each view of the
intersection is contained in the other, so both `any` passes come up false,
and the function reduces to the `Ok` of the three filters. -/
theorem compare_vectors_eq_ok {T : Type} [DecidableEq T] (first second : List T) :
    compare_vectors first second =
      Except.ok (first.filter (fun e => decide (e ∉ second)),
                 second.filter (fun e => decide (e ∉ first)),
                 first.filter (fun e => decide (e ∈ second))) := by
  have h1 : (first.filter (fun e => decide (e ∈ second))).any
      (fun e => decide (e ∉ second.filter (fun e => decide (e ∈ first)))) = false := by
    rw [List.any_eq_false]
    intro x hx
    simp only [List.mem_filter, decide_eq_true_eq] at hx
    simp [List.mem_filter, hx.1, hx.2]
  have h2 : (second.filter (fun e => decide (e ∈ first))).any
      (fun e => decide (e ∉ first.filter (fun e => decide (e ∈ second)))) = false := by
    rw [List.any_eq_false]
    intro x hx
    simp only [List.mem_filter, decide_eq_true_eq] at hx
    simp [List.mem_filter, hx.1, hx.2]
  simp only [compare_vectors, h1, h2, Bool.or_self, if_false, Bool.false_eq_true]

/-- Claim C1: for duplicate-free inputs, `compare_vectors` returns `Ok`, and
the three returned collections, viewed as sets, are pairwise disjoint, their
union is the union of the inputs, and each is exactly the advertised
difference or intersection. -/
theorem compare_vectors_totality {T : Type} [DecidableEq T] (first second : List T)
    (hf : first.Nodup) (hs : second.Nodup) :
    ∃ first_only second_only both,
      compare_vectors first second = Except.ok (first_only, second_only, both) ∧
      IsExactPartition first second first_only second_only both := by
  refine ⟨_, _, _, compare_vectors_eq_ok first second, ?_, ?_, ?_, ?_, ?_, ?_, ?_⟩ <;>
    intro x <;> simp [List.mem_filter] <;> tauto

/-- Witness for C1 at the inputs of the repository's own test
`test_compare_vectors`. -/
theorem compare_vectors_totality_witness :
    ∃ first_only second_only both,
      compare_vectors ([1, 2, 3, 4, 5, 6] : List Nat) [4, 5, 6, 7, 8, 9] =
        Except.ok (first_only, second_only, both) ∧
      IsExactPartition [1, 2, 3, 4, 5, 6] [4, 5, 6, 7, 8, 9] first_only second_only both :=
  compare_vectors_totality [1, 2, 3, 4, 5, 6] [4, 5, 6, 7, 8, 9] (by decide) (by decide)

/-- Claim C2: for duplicate-free inputs, the symmetry invariant check never
fails: `compare_vectors` never takes the `AsymmetricComparison` error branch
and always returns `Ok`. -/
theorem compare_vectors_symmetry {T : Type} [DecidableEq T] (first second : List T)
    (hf : first.Nodup) (hs : second.Nodup) :
    ∃ r, compare_vectors first second = Except.ok r :=
  ⟨_, compare_vectors_eq_ok first second⟩

/-- Witness for C2. -/
theorem compare_vectors_symmetry_witness :
    ∃ r, compare_vectors ([1, 2, 3] : List Nat) [2, 3, 4] = Except.ok r :=
  compare_vectors_symmetry [1, 2, 3] [2, 3, 4] (by decide) (by decide)

/-- Claim C10: `compare_vectors` is total over all inputs, duplicates
included: the two membership-based views of the intersection always contain
the same elements, the `not_found` flag is never set, and the function
always returns `Ok`. -/
theorem compare_vectors_never_asymmetric {T : Type} [DecidableEq T] (first second : List T) :
    (∃ r, compare_vectors first second = Except.ok r) ∧
    (∀ x, x ∈ first.filter (fun e => decide (e ∈ second)) ↔
          x ∈ second.filter (fun e => decide (e ∈ first))) := by
  refine ⟨⟨_, compare_vectors_eq_ok first second⟩, fun x => ?_⟩
  simp [List.mem_filter]
  tauto

/-- Rust `str::split(",")` at the char level: every occurrence of `,`
separates tokens, adjacent or trailing separators produce empty tokens, and
the empty input yields the single empty token. -/
def split_comma : List Char → List (List Char)
  | [] => [[]]
  | c :: rest =>
    match split_comma rest with
    | [] => [[c]]
    | part :: parts =>
      if c = ',' then [] :: part :: parts
      else (c :: part) :: parts

/-- `convert_string_of_keys_to_list_of_key_str` (key_handling.rs:65-74):
pushes each `,`-separated token of the exclusion string, as a `String`. -/
def convert_string_of_keys_to_list_of_key_str (string_of_keys : String) : List String :=
  (split_comma string_of_keys.data).map (fun cs => String.mk cs)

/-- `convert_key_list_to_key_str` (key_handling.rs:102-111): appends each
segment, with a `.` after every segment but the last. -/
def convert_key_list_to_key_str : List String → String
  | [] => ""
  | [subkey] => subkey
  | subkey :: rest => subkey ++ "." ++ convert_key_list_to_key_str rest

/-- Rust `str::contains`: the pattern occurs as a contiguous substring of
the haystack. -/
def str_contains (haystack pattern : String) : Bool :=
  decide (pattern.data <:+: haystack.data)

/-- `filter_keys` (key_handling.rs:151-178): with a blacklist string, a key
is pushed to the output exactly when its `include_key` flag survives the
inner loop, i.e. when no blacklisted token is contained in its dotted
string form; with no blacklist string, every key is pushed. -/
def filter_keys (keys : List (List String)) (blackstr : Option String) : List (List String) :=
  match blackstr with
  | some val =>
    let blacklist := convert_string_of_keys_to_list_of_key_str val
    keys.filter (fun key =>
      !(blacklist.any (fun blacklisted_key =>
          str_contains (convert_key_list_to_key_str key) blacklisted_key)))
  | none => keys

/-- Claim C3: with a present exclusion string, a key-path appears in the
output of `filter_keys` iff it is an input key-path and none of the
comma-separated exclusion tokens occurs as a contiguous substring of its
dotted string form. -/
theorem filter_keys_retention_iff (keys : List (List String)) (val : String)
    (key : List String) :
    key ∈ filter_keys keys (some val) ↔
      key ∈ keys ∧
        ∀ tok ∈ convert_string_of_keys_to_list_of_key_str val,
          ¬ str_contains (convert_key_list_to_key_str key) tok := by
  simp [filter_keys, List.mem_filter, List.any_eq_true]

/-- Claim C5: with an absent exclusion specification, `filter_keys` returns
the input sequence unchanged. -/
theorem filter_keys_none_noop (keys : List (List String)) :
    filter_keys keys none = keys :=
  rfl

/-- Claim C6: when the exclusion string yields an empty comma-delimited
token (e.g. it ends with a trailing comma), every key-path matches it and
`filter_keys` returns the empty sequence. -/
theorem filter_keys_empty_token (keys : List (List String)) (val : String)
    (h : "" ∈ convert_string_of_keys_to_list_of_key_str val) :
    filter_keys keys (some val) = [] := by
  simp only [filter_keys]
  rw [List.filter_eq_nil_iff]
  intro key _
  simp only [Bool.not_eq_true', Bool.not_eq_false]
  rw [List.any_eq_true]
  exact ⟨"", h, by simp [str_contains]⟩

/-- Witness for C6: the trailing comma in `"key9,"` produces an empty token
and empties the output. -/
theorem filter_keys_empty_token_witness :
    filter_keys [["key1"], ["key2", "key3"]] (some "key9,") = [] :=
  filter_keys_empty_token [["key1"], ["key2", "key3"]] "key9," (by decide)

/-- Claim C7: `filter_keys` preserves the relative order of the surviving
key-paths (the output is a sublist of the input) and does not deduplicate
(a surviving key-path keeps its full multiplicity). -/
theorem filter_keys_order_and_multiplicity (keys : List (List String))
    (blackstr : Option String) :
    (filter_keys keys blackstr).Sublist keys ∧
    ∀ key ∈ filter_keys keys blackstr,
      (filter_keys keys blackstr).count key = keys.count key := by
  match blackstr with
  | none => exact ⟨List.Sublist.refl keys, fun key _ => rfl⟩
  | some val =>
    refine ⟨List.filter_sublist keys, fun key hk => ?_⟩
    have hp := (List.mem_filter.mp hk).2
    exact List.count_filter hp

/-- `parse_to_inner` (utils.rs:90-131, parse.rs:87-107, main.rs:72-113): a
non-table value is inserted at the accumulated key; a table is walked entry
by entry, each child visited with the entry's label pushed onto the key. -/
def parse_to_inner : AssocMap → List String → TomlValue → AssocMap
  | collection, _, .table [] => collection
  | collection, key, .table ((k, v) :: rest) =>
    parse_to_inner (parse_to_inner collection (key ++ [k]) v) key (.table rest)
  | collection, key, toml_val => mapInsert collection key toml_val

/-- Whether a `toml::Value` is the `Table` variant. -/
def is_table : TomlValue → Bool
  | .table _ => true
  | _ => false

/-- The tree `{a: {b: 1, c: {d: 2}}}` of the flattener path-construction
property. -/
def example_tree : TomlValue :=
  .table [("a", .table [("b", .integer 1), ("c", .table [("d", .integer 2)])])]

/-- Claim C4: flattening `{a: {b: 1, c: {d: 2}}}` yields exactly two
entries, `[a,b] ↦ 1` and `[a,c,d] ↦ 2`, with no entry for the intermediate
paths `[a]` or `[a,c]`. -/
theorem parse_to_inner_path_construction :
    (parse_to_inner [] [] example_tree).length = 2 ∧
    map_lookup (parse_to_inner [] [] example_tree) ["a", "b"] = some (.integer 1) ∧
    map_lookup (parse_to_inner [] [] example_tree) ["a", "c", "d"] = some (.integer 2) ∧
    map_lookup (parse_to_inner [] [] example_tree) ["a"] = none ∧
    map_lookup (parse_to_inner [] [] example_tree) ["a", "c"] = none := by
  have h : parse_to_inner [] [] example_tree =
      [(["a", "b"], .integer 1), (["a", "c", "d"], .integer 2)] := by
    simp [example_tree, parse_to_inner, mapInsert]
  refine ⟨by rw [h]; rfl, by rw [h]; rfl, by rw [h]; rfl, by rw [h]; rfl, by rw [h]; rfl⟩

/-- Claim C8: flattening an empty table yields an empty map, flattening
`{a: {}}` yields an empty map, and an empty table reached with any
accumulated collection and key contributes nothing. -/
theorem parse_to_inner_emptiness :
    parse_to_inner [] [] (.table []) = [] ∧
    parse_to_inner [] [] (.table [("a", .table [])]) = [] ∧
    ∀ (collection : AssocMap) (key : List String),
      parse_to_inner collection key (.table []) = collection := by
  refine ⟨by simp [parse_to_inner], by simp [parse_to_inner],
    fun collection key => by simp [parse_to_inner]⟩

/-- Flattening preserves table-freeness of the accumulated collection:
every value `parse_to_inner` ever inserts comes from a non-table branch. -/
theorem parse_to_inner_all_not_table (collection : AssocMap) (key : List String)
    (toml_val : TomlValue) :
    collection.all (fun p => !is_table p.2) = true →
      (parse_to_inner collection key toml_val).all (fun p => !is_table p.2) = true := by
  induction collection, key, toml_val using parse_to_inner.induct with
  | case1 collection key =>
    intro h
    simpa [parse_to_inner] using h
  | case2 collection key k v rest ih1 ih2 =>
    intro h
    simp only [parse_to_inner]
    exact ih2 (ih1 h)
  | case3 collection key v h1 h2 =>
    intro h
    have hv : is_table v = false := by
      cases v with
      | table entries =>
        cases entries with
        | nil => exact absurd rfl h1
        | cons e rest => exact absurd rfl (h2 e.1 e.2 rest)
      | _ => rfl
    have hne : ∀ entries, v = TomlValue.table entries → False := by
      intro entries he
      rw [he] at hv
      simp [is_table] at hv
    rw [show parse_to_inner collection key v = mapInsert collection key v from ?_]
    · simp only [mapInsert, List.all_append, List.all_filter, Bool.and_eq_true]
      constructor
      · rw [List.all_eq_true] at h ⊢
        intro p hp
        simp only [decide_eq_true_eq]
        intro _
        exact h p hp
      · simp [hv]
    · cases v with
      | table entries =>
        cases entries with
        | nil => exact absurd rfl h1
        | cons e rest => exact absurd rfl (h2 e.1 e.2 rest)
      | string s => simp [parse_to_inner]
      | integer n => simp [parse_to_inner]
      | float f => simp [parse_to_inner]
      | boolean b => simp [parse_to_inner]
      | datetime d => simp [parse_to_inner]
      | array a => simp [parse_to_inner]

/-- Claim C9: every value stored in the flattened map is a non-table
variant: the `Table` variant never appears as a value of the result. -/
theorem parse_to_inner_no_table_values (tree : TomlValue) :
    (parse_to_inner [] [] tree).all (fun p => !is_table p.2) = true :=
  parse_to_inner_all_not_table [] [] tree rfl
